import Mathlib

/-!
Verification of the news/stock data-wrangling pipeline of the
`Veri-madenciligi` repository.

The Python source (pandas DataFrames, decorated HTTP fetchers) is shallowly
embedded: DataFrames become lists of records, numeric values become `Rat`,
dates become `Int` day values, and the dynamic, name-keyed extra columns the
merge appends become association lists from column names to cells.
-/

set_option maxHeartbeats 1000000

/-! ### Python string primitives

`str.upper` (ASCII letters), `str.strip` and substring containment, embedded
character-wise, as used by the symbol formatters, the deduplication and the
name-based `fillna` loops.
-/

/-- Whitespace characters removed by the Python `str.strip` method. -/
def pyWsChar (c : Char) : Bool :=
  c == ' ' || c == '\t' || c == '\n' || c == '\r' || c == '\x0b' || c == '\x0c'

/-- The lower/upper case pairs of the ASCII letters, the alphabet over which
the Python `str.upper` method acts in the symbol tables of the source. -/
def upPairs : List (Char × Char) :=
  [('a', 'A'), ('b', 'B'), ('c', 'C'), ('d', 'D'), ('e', 'E'), ('f', 'F'),
   ('g', 'G'), ('h', 'H'), ('i', 'I'), ('j', 'J'), ('k', 'K'), ('l', 'L'),
   ('m', 'M'), ('n', 'N'), ('o', 'O'), ('p', 'P'), ('q', 'Q'), ('r', 'R'),
   ('s', 'S'), ('t', 'T'), ('u', 'U'), ('v', 'V'), ('w', 'W'), ('x', 'X'),
   ('y', 'Y'), ('z', 'Z')]

/-- Uppercase one character, as `str.upper` does on ASCII letters. -/
def upChar (c : Char) : Char :=
  ((upPairs.find? (fun p => p.1 == c)).map Prod.snd).getD c

/-- Embeds `s.upper()`. -/
def pyUpper (s : String) : String := ⟨s.data.map upChar⟩

/-- Strip leading and trailing whitespace from a character list. -/
def stripChars (l : List Char) : List Char :=
  ((l.dropWhile pyWsChar).reverse.dropWhile pyWsChar).reverse

/-- Embeds `s.strip()`. -/
def pyStrip (s : String) : String := ⟨stripChars s.data⟩

/-- Embeds `s.upper().strip()`, the normalisation both symbol formatters start with. -/
def pyNorm (s : String) : String := pyStrip (pyUpper s)

/-- Does the character list start with the pattern `p`? -/
def charsStart : List Char → List Char → Bool
  | [], _ => true
  | _ :: _, [] => false
  | p :: ps, c :: cs => p == c && charsStart ps cs

/-- Does the pattern occur as a contiguous run in the character list? -/
def charsSub (p : List Char) : List Char → Bool
  | [] => p.isEmpty
  | c :: cs => charsStart p (c :: cs) || charsSub p cs

/-- Embeds the Python `pat in s` substring test. -/
def strHasSub (pat s : String) : Bool := charsSub pat.data s.data

/-! ### C1: time-of-day bucketing (`get_time_of_day`) -/

/-- Embeds `get_time_of_day` of `Veri_Alma/HaberVerileriniAlma.py`:
the hour of the `publishedAt` stamp of a news item is bucketed into one of the four
time-of-day windows used by the merge. -/
def get_time_of_day (hour : Int) : String :=
  if 9 ≤ hour ∧ hour < 12 then "sabah"
  else if 12 ≤ hour ∧ hour < 14 then "öğle"
  else if 14 ≤ hour ∧ hour < 17 then "akşam"
  else "diğer"

/-- C1: for every integer hour, `get_time_of_day` assigns the window `sabah`
iff `9 ≤ h < 12`, `öğle` iff `12 ≤ h < 14`, `akşam` iff `14 ≤ h < 17`, and
`diğer` exactly for the remaining hours, so each hour lands in exactly one
of the four windows. -/
theorem c1_get_time_of_day (h : Int) :
    (get_time_of_day h = "sabah" ↔ 9 ≤ h ∧ h < 12) ∧
    (get_time_of_day h = "öğle" ↔ 12 ≤ h ∧ h < 14) ∧
    (get_time_of_day h = "akşam" ↔ 14 ≤ h ∧ h < 17) ∧
    (get_time_of_day h = "diğer" ↔ ¬(9 ≤ h ∧ h < 17)) ∧
    (get_time_of_day h = "sabah" ∨ get_time_of_day h = "öğle" ∨
      get_time_of_day h = "akşam" ∨ get_time_of_day h = "diğer") := by
  unfold get_time_of_day
  split_ifs with h1 h2 h3 <;>
    refine ⟨⟨fun hx => ?_, fun hx => ?_⟩, ⟨fun hx => ?_, fun hx => ?_⟩,
      ⟨fun hx => ?_, fun hx => ?_⟩, ⟨fun hx => ?_, fun hx => ?_⟩, by simp⟩ <;>
    first
      | rfl
      | omega
      | exact absurd hx (by decide)

/-! ### News rows and deduplication (C5) -/

/-- A row of the news DataFrame, carrying the fields the verified code paths
read: the calendar date and hour extracted from `publishedAt`, the VADER
sentiment columns, the title and the url. -/
structure NewsRow where
  date : Int
  hour : Int
  sentiment_compound : Rat
  sentiment_pos : Rat
  sentiment_neg : Rat
  sentiment_neu : Rat
  title : String
  url : String
deriving DecidableEq, Repr

/-- Embeds `DataFrame.drop_duplicates(subset=..., keep="first")` generalised
over the key: keep a row iff its key has not occurred in an earlier row. -/
def dedupFirst {α β : Type} [DecidableEq β] (key : α → β) (seen : List β) :
    List α → List α
  | [] => []
  | x :: xs =>
    if key x ∈ seen then dedupFirst key seen xs
    else x :: dedupFirst key (key x :: seen) xs

/-- The deduplication step of `get_news_data`:
`news_df.drop_duplicates(subset=["url"], keep="first")`. -/
def drop_duplicates_url (l : List NewsRow) : List NewsRow :=
  dedupFirst (fun r => r.url) [] l

theorem dedupFirst_key_not_seen {α β : Type} [DecidableEq β] (key : α → β) :
    ∀ (l : List α) (seen : List β) (x : α),
      x ∈ dedupFirst key seen l → key x ∉ seen := by
  intro l
  induction l with
  | nil => intro seen x hx; simp [dedupFirst] at hx
  | cons a as ih =>
    intro seen x hx
    by_cases ha : key a ∈ seen
    · simp only [dedupFirst, if_pos ha] at hx
      exact ih seen x hx
    · simp only [dedupFirst, if_neg ha] at hx
      rcases List.mem_cons.mp hx with hx | hx
      · subst hx; exact ha
      · intro hs
        exact ih (key a :: seen) x hx (List.mem_cons_of_mem _ hs)

theorem dedupFirst_map_key_nodup {α β : Type} [DecidableEq β] (key : α → β) :
    ∀ (l : List α) (seen : List β),
      ((dedupFirst key seen l).map key).Nodup := by
  intro l
  induction l with
  | nil => intro seen; simp [dedupFirst]
  | cons a as ih =>
    intro seen
    by_cases ha : key a ∈ seen
    · simp only [dedupFirst, if_pos ha]; exact ih seen
    · simp only [dedupFirst, if_neg ha, List.map_cons, List.nodup_cons]
      refine ⟨?_, ih (key a :: seen)⟩
      intro hmem
      rcases List.mem_map.mp hmem with ⟨x, hx, hkx⟩
      exact dedupFirst_key_not_seen key as (key a :: seen) x hx
        (hkx ▸ List.mem_cons_self _ _)

theorem dedupFirst_sublist {α β : Type} [DecidableEq β] (key : α → β) :
    ∀ (l : List α) (seen : List β), (dedupFirst key seen l).Sublist l := by
  intro l
  induction l with
  | nil => intro seen; simp [dedupFirst]
  | cons a as ih =>
    intro seen
    by_cases ha : key a ∈ seen
    · simp only [dedupFirst, if_pos ha]
      exact (ih seen).cons a
    · simp only [dedupFirst, if_neg ha]
      exact (ih (key a :: seen)).cons₂ a

theorem dedupFirst_find? {α β : Type} [DecidableEq β] (key : α → β) :
    ∀ (l : List α) (seen : List β) (u : β), u ∉ seen →
      (dedupFirst key seen l).find? (fun x => key x == u) =
        l.find? (fun x => key x == u) := by
  intro l
  induction l with
  | nil => intro seen u _; simp [dedupFirst]
  | cons a as ih =>
    intro seen u hu
    by_cases ha : key a ∈ seen
    · have hf : (key a == u) = false := by
        refine beq_eq_false_iff_ne.mpr ?_
        intro h; exact hu (h ▸ ha)
      simp only [dedupFirst, if_pos ha, List.find?_cons, hf]
      exact ih seen u hu
    · by_cases hau : key a = u
      · have ht : (key a == u) = true := beq_iff_eq.mpr hau
        simp only [dedupFirst, if_neg ha, List.find?_cons, ht]
      · have hf : (key a == u) = false := beq_eq_false_iff_ne.mpr hau
        simp only [dedupFirst, if_neg ha, List.find?_cons, hf]
        refine ih (key a :: seen) u ?_
        intro hmem
        rcases List.mem_cons.mp hmem with h | h
        · exact hau h.symm
        · exact hu h

/-- C5: after `drop_duplicates(subset=["url"], keep="first")` the remaining
urls are pairwise distinct, the surviving rows form a subsequence of the
fetched order (so rows with fresh urls are never removed), and for every url
the row kept is exactly the first fetched row carrying that url. -/
theorem c5_drop_duplicates_url (l : List NewsRow) :
    ((drop_duplicates_url l).map (fun r => r.url)).Nodup ∧
    (drop_duplicates_url l).Sublist l ∧
    ∀ u : String,
      (drop_duplicates_url l).find? (fun r => r.url == u) =
        l.find? (fun r => r.url == u) := by
  refine ⟨dedupFirst_map_key_nodup _ l [], dedupFirst_sublist _ l [], ?_⟩
  intro u
  exact dedupFirst_find? (fun r : NewsRow => r.url) l [] u (by simp)

/-! ### String normalisation lemmas for C9 -/

theorem upPairs_snd_not_key :
    ∀ p ∈ upPairs, ∀ q ∈ upPairs, ¬q.1 = p.2 := by decide

theorem upPairs_not_ws :
    ∀ p ∈ upPairs, pyWsChar p.1 = false ∧ pyWsChar p.2 = false := by decide

theorem upChar_upChar (c : Char) : upChar (upChar c) = upChar c := by
  cases h : upPairs.find? (fun p => p.1 == c) with
  | none =>
    have hc : upChar c = c := by simp [upChar, h]
    rw [hc]; exact hc
  | some pr =>
    have hm : pr ∈ upPairs := List.mem_of_find?_eq_some h
    have hc : upChar c = pr.2 := by simp [upChar, h]
    rw [hc]
    have hnone : upPairs.find? (fun p => p.1 == pr.2) = none := by
      refine List.find?_eq_none.mpr ?_
      intro q hq hbeq
      exact upPairs_snd_not_key pr hm q hq (by simpa using hbeq)
    simp [upChar, hnone]

theorem pyWsChar_upChar (c : Char) : pyWsChar (upChar c) = pyWsChar c := by
  cases h : upPairs.find? (fun p => p.1 == c) with
  | none => simp [upChar, h]
  | some pr =>
    have hm : pr ∈ upPairs := List.mem_of_find?_eq_some h
    have hkey : pr.1 = c := by
      have := List.find?_some h
      simpa using this
    have hc : upChar c = pr.2 := by simp [upChar, h]
    rw [hc, ← hkey]
    rw [(upPairs_not_ws pr hm).1, (upPairs_not_ws pr hm).2]

theorem dropWhile_dropWhile {α : Type} (p : α → Bool) (l : List α) :
    (l.dropWhile p).dropWhile p = l.dropWhile p := by
  induction l with
  | nil => rfl
  | cons a l ih =>
    by_cases pa : p a
    · simp [List.dropWhile_cons, pa, ih]
    · simp [List.dropWhile_cons, pa]

theorem dropWhile_suffix {α : Type} (p : α → Bool) (l : List α) :
    l.dropWhile p <:+ l := by
  induction l with
  | nil => simp
  | cons a l ih =>
    by_cases pa : p a
    · simp only [List.dropWhile_cons, pa, if_true]
      exact ih.trans (List.suffix_cons a l)
    · simp [List.dropWhile_cons, pa]

theorem head_false_of_dropWhile_self {α : Type} {p : α → Bool} {l : List α}
    (h : l.dropWhile p = l) : ∀ a, l.head? = some a → p a = false := by
  intro a ha
  cases l with
  | nil => simp at ha
  | cons b m =>
    have hb : b = a := by simpa using ha
    subst hb
    by_cases pb : p b
    · exfalso
      rw [List.dropWhile_cons, if_pos pb] at h
      have := congrArg List.length h
      have hle := (dropWhile_suffix p m).sublist.length_le
      simp at this
      omega
    · simpa using pb

theorem dropWhile_self_of_prefix {α : Type} {p : α → Bool} {l m : List α}
    (hpre : m <+: l) (h : l.dropWhile p = l) : m.dropWhile p = m := by
  cases m with
  | nil => rfl
  | cons a t =>
    rcases hpre with ⟨r, hr⟩
    have hl : l = a :: (t ++ r) := by rw [← hr]; rfl
    have hpa : p a = false := by
      refine head_false_of_dropWhile_self h a ?_
      rw [hl]; rfl
    simp [List.dropWhile_cons, hpa]

theorem stripChars_dropWhile (l : List Char)
    (h : l.dropWhile pyWsChar = l) :
    (((l.reverse.dropWhile pyWsChar).reverse).dropWhile pyWsChar) =
      (l.reverse.dropWhile pyWsChar).reverse := by
  have hsuf : l.reverse.dropWhile pyWsChar <:+ l.reverse :=
    dropWhile_suffix pyWsChar l.reverse
  have hpre : (l.reverse.dropWhile pyWsChar).reverse <+: l := by
    have := List.reverse_prefix.mpr hsuf
    simpa using this
  exact dropWhile_self_of_prefix hpre h

theorem stripChars_idem (l : List Char) :
    stripChars (stripChars l) = stripChars l := by
  unfold stripChars
  set A := l.dropWhile pyWsChar with hA
  have hAself : A.dropWhile pyWsChar = A := dropWhile_dropWhile pyWsChar l
  set B := A.reverse.dropWhile pyWsChar with hB
  have h1 : B.reverse.dropWhile pyWsChar = B.reverse := stripChars_dropWhile A hAself
  rw [h1]
  have h2 : B.reverse.reverse.dropWhile pyWsChar = B := by
    rw [List.reverse_reverse, hB]
    exact dropWhile_dropWhile pyWsChar A.reverse
  rw [h2]

theorem mem_stripChars {l : List Char} {c : Char} (h : c ∈ stripChars l) : c ∈ l := by
  unfold stripChars at h
  rw [List.mem_reverse] at h
  have h1 : c ∈ (l.dropWhile pyWsChar).reverse :=
    ((dropWhile_suffix pyWsChar _).sublist.subset) h
  rw [List.mem_reverse] at h1
  exact ((dropWhile_suffix pyWsChar _).sublist.subset) h1

theorem map_upChar_self (m : List Char) (h : ∀ c ∈ m, upChar c = c) :
    m.map upChar = m := by
  induction m with
  | nil => rfl
  | cons a t ih =>
    simp only [List.map_cons]
    rw [h a (List.mem_cons_self a t), ih (fun c hc => h c (List.mem_cons_of_mem a hc))]

theorem pyNorm_idem (s : String) : pyNorm (pyNorm s) = pyNorm s := by
  have hup : ∀ c ∈ stripChars (s.data.map upChar), upChar c = c := by
    intro c hc
    rcases List.mem_map.mp (mem_stripChars hc) with ⟨d, _, hd⟩
    rw [← hd]; exact upChar_upChar d
  show pyStrip (pyUpper (pyStrip (pyUpper s))) = pyStrip (pyUpper s)
  unfold pyUpper pyStrip
  simp only
  congr 1
  rw [map_upChar_self _ hup]
  exact stripChars_idem _

/-! ### C9: symbol formatters (`format_stock_symbol`, `format_index_symbol`) -/

/-- Embeds the `"." in symbol` test run after normalisation. -/
def hasDot (s : String) : Bool := s.data.contains '.'

/-- The `common_symbols` dictionary of `format_stock_symbol`. -/
def common_symbols : List (String × String) :=
  [("THYAO", "THYAO.IS"), ("ASELS", "ASELS.IS"),
   ("ISCTR", "ISCTR.IS"), ("GARAN", "GARAN.IS")]

/-- Embeds `format_stock_symbol` of `Veri_Alma/HaberVerileriniAlma.py`:
upper-case and strip the symbol, return it unchanged when it already holds a
dot, otherwise consult the exchange lists and the `common_symbols` table. -/
def format_stock_symbol (symbol : String) (exchange : String) : String :=
  let s := pyNorm symbol
  if hasDot s then s
  else if exchange ≠ "" then
    let e := pyNorm exchange
    if e ∈ ["BIST", "BORSA ISTANBUL", "BORSA İSTANBUL", "XU100"] then s ++ ".IS"
    else if e ∈ ["NASDAQ", "NYSE", "US", "USA", "AMERICA"] then s
    else (List.lookup s common_symbols).getD s
  else (List.lookup s common_symbols).getD s

/-- The `index_map` dictionary of `format_index_symbol`. -/
def index_map : List (String × String) :=
  [("NASDAQ", "^IXIC"), ("NASDQ", "^IXIC"), ("S&P", "^GSPC"), ("S&P500", "^GSPC"),
   ("S&P 500", "^GSPC"), ("SP500", "^GSPC"), ("DOW", "^DJI"), ("DOWJONES", "^DJI"),
   ("DOW JONES", "^DJI"), ("BIST", "XU100.IS"), ("BIST100", "XU100.IS"),
   ("XU100", "XU100.IS"), ("BORSA ISTANBUL", "XU100.IS"), ("DAX", "^GDAXI"),
   ("FTSE", "^FTSE"), ("FTSE100", "^FTSE"), ("NIKKEI", "^N225"), ("VIX", "^VIX")]

/-- Embeds `format_index_symbol`: upper-case and strip the index name, then
look it up in the `index_map` dictionary with the name itself as default. -/
def format_index_symbol (index_name : String) : String :=
  let s := pyNorm index_name
  (List.lookup s index_map).getD s

theorem lookup_pair_mem {l : List (String × String)} {k v : String}
    (h : List.lookup k l = some v) : (k, v) ∈ l := by
  induction l with
  | nil => simp [List.lookup] at h
  | cons p ps ih =>
    cases p with
    | mk a b =>
      rw [List.lookup] at h
      cases hk : (k == a) with
      | false =>
        simp only [hk] at h
        exact List.mem_cons_of_mem _ (ih h)
      | true =>
        simp only [hk] at h
        have ha : k = a := by simpa using hk
        have hb : b = v := by simpa using h
        subst ha; subst hb
        exact List.mem_cons_self _ _

theorem common_symbols_vals_fixed :
    ∀ p ∈ common_symbols, format_stock_symbol p.2 "" = p.2 := by decide

theorem index_map_vals_fixed :
    ∀ p ∈ index_map, format_index_symbol p.2 = p.2 := by decide

/-- C9: `format_stock_symbol` with the default empty exchange and
`format_index_symbol` are idempotent: feeding either formatter its own output
returns that output unchanged. -/
theorem c9_formatters_idempotent (s : String) :
    format_stock_symbol (format_stock_symbol s "") "" = format_stock_symbol s "" ∧
    format_index_symbol (format_index_symbol s) = format_index_symbol s := by
  have hnn : pyNorm (pyNorm s) = pyNorm s := pyNorm_idem s
  constructor
  · by_cases hd : hasDot (pyNorm s)
    · have h1 : format_stock_symbol s "" = pyNorm s := by
        simp [format_stock_symbol, hd]
      rw [h1]
      simp [format_stock_symbol, hnn, hd]
    · cases hlk : List.lookup (pyNorm s) common_symbols with
      | some v =>
        have hv : (pyNorm s, v) ∈ common_symbols := lookup_pair_mem hlk
        have h1 : format_stock_symbol s "" = v := by
          simp [format_stock_symbol, hd, hlk]
        rw [h1]
        exact common_symbols_vals_fixed _ hv
      | none =>
        have h1 : format_stock_symbol s "" = pyNorm s := by
          simp [format_stock_symbol, hd, hlk]
        rw [h1]
        simp [format_stock_symbol, hnn, hd, hlk]
  · cases hlk : List.lookup (pyNorm s) index_map with
    | some v =>
      have hv : (pyNorm s, v) ∈ index_map := lookup_pair_mem hlk
      have h1 : format_index_symbol s = v := by
        simp [format_index_symbol, hlk]
      rw [h1]
      exact index_map_vals_fixed _ hv
    | none =>
      have h1 : format_index_symbol s = pyNorm s := by
        simp [format_index_symbol, hlk]
      rw [h1]
      simp [format_index_symbol, hnn, hlk]

/-! ### C6: the `retry_with_backoff` decorator

The behaviour of the wrapped function is abstracted as a finite trace of per-call
outcomes: a normal return, a retryable error (one of the request, connection,
value or IO errors, tagged with whether it was an HTTP 429 response), or an
exception of any other type.  The jitter factors `(0.5 + random())` are an
explicit input sequence.
-/

/-- The outcome of one invocation of the wrapped function. -/
inductive CallOutcome where
  | success
  | retryable (is429 : Bool)
  | fatal
deriving DecidableEq, Repr

/-- How a run of the wrapper ends. `diverged` marks a trace shorter than the
run it describes. -/
inductive RetryOutcome where
  | returned
  | reraised (is429 : Bool)
  | fatalRaised
  | diverged
deriving DecidableEq, Repr

/-- The `while True` loop of the `retry_with_backoff` wrapper: `n` is
`num_retries`, `d` the current delay.  Returns how the run ends together with
the number of invocations of the wrapped function. -/
def retryRun (base : Rat) (jitter : Bool) (jit : List Rat) (max_retries : Nat) :
    List CallOutcome → Nat → Rat → RetryOutcome × Nat
  | [], _, _ => (.diverged, 0)
  | .success :: _, _, _ => (.returned, 1)
  | .fatal :: _, _, _ => (.fatalRaised, 1)
  | .retryable b :: os, n, d =>
    if n + 1 > max_retries then (.reraised b, 1)
    else
      let r := retryRun base jitter jit.tail max_retries os (n + 1)
        (d * (base * (if b then 2 else 1)) * (if jitter then jit.headD 1 else 1))
      (r.1, r.2 + 1)

/-- Embeds `retry_with_backoff(initial_delay, exponential_base, jitter,
max_retries)` applied to a function whose successive invocations behave as
`os`. -/
def retry_with_backoff (initial_delay base : Rat) (jitter : Bool)
    (jit : List Rat) (max_retries : Nat) (os : List CallOutcome) :
    RetryOutcome × Nat :=
  retryRun base jitter jit max_retries os 0 initial_delay

theorem retryRun_calls_le (base : Rat) (jitter : Bool) :
    ∀ (os : List CallOutcome) (jit : List Rat) (maxr n : Nat) (d : Rat),
      n ≤ maxr → (retryRun base jitter jit maxr os n d).2 ≤ maxr + 1 - n := by
  intro os
  induction os with
  | nil => intro jit maxr n d _; simp [retryRun]
  | cons o os ih =>
    intro jit maxr n d hle
    cases o with
    | success => simp [retryRun]; omega
    | fatal => simp [retryRun]; omega
    | retryable b =>
      by_cases hn : n + 1 > maxr
      · simp [retryRun, hn]; omega
      · simp only [retryRun, if_neg hn]
        have h := ih jit.tail maxr (n + 1)
          (d * (base * (if b then 2 else 1)) * (if jitter then jit.headD 1 else 1))
          (by omega)
        simp only at h ⊢
        omega

theorem retryRun_exhaust (base : Rat) (jitter : Bool) (b : Bool) :
    ∀ (k : Nat) (jit : List Rat) (maxr n : Nat) (d : Rat),
      n + k = maxr + 1 → 1 ≤ k →
      retryRun base jitter jit maxr (List.replicate k (.retryable b)) n d =
        (.reraised b, k) := by
  intro k
  induction k with
  | zero => intro jit maxr n d h hk; omega
  | succ k ih =>
    intro jit maxr n d h hk
    rw [List.replicate_succ]
    by_cases hn : n + 1 > maxr
    · have hk0 : k = 0 := by omega
      subst hk0
      simp [retryRun, hn]
    · simp only [retryRun, if_neg hn]
      rw [ih jit.tail maxr (n + 1) _ (by omega) (by omega)]

/-- C6: a function wrapped with `retry_with_backoff` is invoked at most
`max_retries + 1` times; an exception outside the retryable classes
propagates after a single invocation without any retry; a run of
`max_retries + 1` consecutive retryable failures re-raises the last
exception after exactly `max_retries + 1` invocations; and every retryable
failure that does not exhaust the retries leads to one further attempt with
the delay multiplied by `exponential_base`, by a further factor `2` on an
HTTP 429 response, and by the jitter factor when jitter is enabled. -/
theorem c6_retry_with_backoff (initial_delay base : Rat) (jitter : Bool)
    (jit : List Rat) (max_retries : Nat) :
    (∀ os : List CallOutcome,
      (retry_with_backoff initial_delay base jitter jit max_retries os).2 ≤
        max_retries + 1) ∧
    (∀ os : List CallOutcome,
      retry_with_backoff initial_delay base jitter jit max_retries
        (.fatal :: os) = (.fatalRaised, 1)) ∧
    (∀ b : Bool,
      retry_with_backoff initial_delay base jitter jit max_retries
        (List.replicate (max_retries + 1) (.retryable b)) =
        (.reraised b, max_retries + 1)) ∧
    (∀ (b : Bool) (os : List CallOutcome) (n : Nat) (d : Rat),
      retryRun base jitter jit max_retries (.retryable b :: os) n d =
        if n + 1 > max_retries then (.reraised b, 1)
        else
          ((retryRun base jitter jit.tail max_retries os (n + 1)
              (d * (base * (if b then 2 else 1)) *
                (if jitter then jit.headD 1 else 1))).1,
            (retryRun base jitter jit.tail max_retries os (n + 1)
              (d * (base * (if b then 2 else 1)) *
                (if jitter then jit.headD 1 else 1))).2 + 1)) := by
  refine ⟨?_, ?_, ?_, ?_⟩
  · intro os
    have h := retryRun_calls_le base jitter os jit max_retries 0 initial_delay
      (by omega)
    unfold retry_with_backoff
    omega
  · intro os; rfl
  · intro b
    exact retryRun_exhaust base jitter b (max_retries + 1) jit max_retries 0
      initial_delay (by omega) (by omega)
  · intro b os n d
    by_cases hn : n + 1 > max_retries
    · simp [retryRun, hn]
    · simp [retryRun, hn]

/-! ### C7: `get_news_data` fallback chain -/

/-- The environment a call to `get_news_data` runs in: whether the
`NEWS_API_KEY` variable is set, whether constructing the `NewsApiClient`
raises, the articles each monthly NewsAPI query contributes (an empty list
for a failed month or a month with no articles), whether an exception escapes
to the outer handler during processing, the contents of a readable previously
saved local CSV, and the synthetic news generation would produce. -/
structure NewsEnv where
  hasApiKey : Bool
  clientInitFails : Bool
  monthlyArticles : List (List NewsRow)
  processingException : Bool
  localCsv : Option (List NewsRow)
  synthetic : List NewsRow

/-- Embeds `get_alternative_news_data`: a previously saved non-empty local
CSV wins, otherwise synthetic news is generated. -/
def get_alternative_news_data (env : NewsEnv) : List NewsRow :=
  match env.localCsv with
  | some rows => if rows.isEmpty then env.synthetic else rows
  | none => env.synthetic

/-- Which source produced the rows `get_news_data` returns. -/
inductive NewsFetchResult where
  | fromApi (rows : List NewsRow)
  | fromAlternative (rows : List NewsRow)
deriving DecidableEq, Repr

/-- Embeds `get_news_data`: without an API key, on a client-construction
failure, on an exception reaching the outer handler, or when the monthly
queries contribute no article at all, the alternative source is used;
otherwise the collected articles are deduplicated by url and returned. -/
def get_news_data (env : NewsEnv) : NewsFetchResult :=
  if !env.hasApiKey then .fromAlternative (get_alternative_news_data env)
  else if env.clientInitFails then .fromAlternative (get_alternative_news_data env)
  else if env.processingException then .fromAlternative (get_alternative_news_data env)
  else
    let all_articles := env.monthlyArticles.flatten
    if !all_articles.isEmpty then .fromApi (drop_duplicates_url all_articles)
    else .fromAlternative (get_alternative_news_data env)

/-- C7: when the API key is absent, or the client cannot be constructed, or
every NewsAPI query returns zero articles, or an exception reaches the outer
handler, `get_news_data` returns exactly what the fallback
`get_alternative_news_data` returns — the saved local CSV when it exists and
is non-empty, synthetic news otherwise — never raising and never returning a
partial result. -/
theorem c7_get_news_data_fallback (env : NewsEnv)
    (h : env.hasApiKey = false ∨ env.clientInitFails = true ∨
      env.monthlyArticles.flatten = [] ∨ env.processingException = true) :
    get_news_data env = .fromAlternative (get_alternative_news_data env) ∧
    (∀ rows : List NewsRow, env.localCsv = some rows → rows ≠ [] →
      get_alternative_news_data env = rows) ∧
    (env.localCsv = none → get_alternative_news_data env = env.synthetic) := by
  refine ⟨?_, ?_, ?_⟩
  · unfold get_news_data
    rcases h with h | h | h | h <;>
      cases hk : env.hasApiKey <;> cases hc : env.clientInitFails <;>
        cases hp : env.processingException <;> (simp_all; try exact h)
  · intro rows hcsv hne
    have hre : rows.isEmpty = false := by
      cases rows with
      | nil => exact absurd rfl hne
      | cons a t => rfl
    simp [get_alternative_news_data, hcsv, hre]
  · intro h0
    simp [get_alternative_news_data, h0]

/-- Witness for C7 at a concrete environment: no API key is set, no local
CSV exists, so the call returns the synthetic fallback rows. -/
theorem c7_get_news_data_fallback_witness :
    ((⟨false, false, [], false, none, [⟨0, 10, 0, 1, 0, 1, "t", "u"⟩]⟩ :
        NewsEnv).hasApiKey = false ∨
      (⟨false, false, [], false, none, [⟨0, 10, 0, 1, 0, 1, "t", "u"⟩]⟩ :
        NewsEnv).clientInitFails = true ∨
      (⟨false, false, [], false, none, [⟨0, 10, 0, 1, 0, 1, "t", "u"⟩]⟩ :
        NewsEnv).monthlyArticles.flatten = [] ∨
      (⟨false, false, [], false, none, [⟨0, 10, 0, 1, 0, 1, "t", "u"⟩]⟩ :
        NewsEnv).processingException = true) ∧
    (get_news_data ⟨false, false, [], false, none, [⟨0, 10, 0, 1, 0, 1, "t", "u"⟩]⟩ =
      .fromAlternative (get_alternative_news_data
        ⟨false, false, [], false, none, [⟨0, 10, 0, 1, 0, 1, "t", "u"⟩]⟩) ∧
      (∀ rows : List NewsRow,
        (⟨false, false, [], false, none, [⟨0, 10, 0, 1, 0, 1, "t", "u"⟩]⟩ :
          NewsEnv).localCsv = some rows → rows ≠ [] →
        get_alternative_news_data
          ⟨false, false, [], false, none, [⟨0, 10, 0, 1, 0, 1, "t", "u"⟩]⟩ = rows) ∧
      ((⟨false, false, [], false, none, [⟨0, 10, 0, 1, 0, 1, "t", "u"⟩]⟩ :
          NewsEnv).localCsv = none →
        get_alternative_news_data
          ⟨false, false, [], false, none, [⟨0, 10, 0, 1, 0, 1, "t", "u"⟩]⟩ =
          (⟨false, false, [], false, none, [⟨0, 10, 0, 1, 0, 1, "t", "u"⟩]⟩ :
            NewsEnv).synthetic)) :=
  ⟨Or.inl rfl,
    c7_get_news_data_fallback
      ⟨false, false, [], false, none, [⟨0, 10, 0, 1, 0, 1, "t", "u"⟩]⟩ (Or.inl rfl)⟩

/-! ### C8: `transform_data` (relative-performance features) -/

/-- A row of the stock/index price DataFrame with the columns the verified
code paths read; further columns of the merged frame are carried through the
source untouched. -/
structure StockRow where
  Date : Int
  Open : Rat
  High : Rat
  Low : Rat
  Close : Rat
  Volume : Rat
  Symbol : String
deriving DecidableEq, Repr

/-- Embeds `(Close - Open) / Open`, the per-row daily return computed by
`transform_data` for both the stock and the index selection. -/
def daily_return (r : StockRow) : Rat := (r.Close - r.Open) / r.Open

/-- The `pd.cut` with bins `(-inf, -0.01]`, `(-0.01, 0.01]`, `(0.01, inf)`
labelling the relative performance; `pd.cut` intervals are right-closed. -/
def perfCategory (x : Rat) : String :=
  if x ≤ -(1 / 100) then "Negatif Sapma"
  else if x ≤ 1 / 100 then "Nötr"
  else "Pozitif Sapma"

/-- A row of the DataFrame `transform_data` returns: the stock row with its
daily return, the positionally aligned index fields, and the derived
relative-performance feature and category. -/
structure TransRow where
  stock : StockRow
  daily_return : Rat
  index_open : Rat
  index_high : Rat
  index_low : Rat
  index_close : Rat
  index_volume : Rat
  index_daily_return : Rat
  relative_performance : Rat
  relative_perf_category : String
deriving DecidableEq, Repr

/-- Embeds `transform_data` of `data_preprocessing.py`: filter the stock and
the index rows by symbol, compute the daily return of each side, attach the index
fields to the stock rows by position, and derive the relative performance
and its category.  (Assigning `index_df[...].values` into `result_df`
requires the two selections to have equal length in the source; `zip` models
the aligned part.) -/
def transform_data (df : List StockRow) (stock_symbol index_symbol : String) :
    List TransRow :=
  let stock_df := df.filter (fun r => r.Symbol == stock_symbol)
  let index_df := df.filter (fun r => r.Symbol == index_symbol)
  (stock_df.zip index_df).map (fun p =>
    ⟨p.1, daily_return p.1, p.2.Open, p.2.High, p.2.Low, p.2.Close, p.2.Volume,
      daily_return p.2, daily_return p.1 - daily_return p.2,
      perfCategory (daily_return p.1 - daily_return p.2)⟩)

theorem zip_getElem? {α β : Type} :
    ∀ (l1 : List α) (l2 : List β) (k : Nat) (a : α) (b : β),
      l1[k]? = some a → l2[k]? = some b → (l1.zip l2)[k]? = some (a, b) := by
  intro l1
  induction l1 with
  | nil => intro l2 k a b h1 _; simp at h1
  | cons x xs ih =>
    intro l2 k a b h1 h2
    cases l2 with
    | nil => simp at h2
    | cons y ys =>
      cases k with
      | zero =>
        simp only [List.getElem?_cons_zero, Option.some.injEq] at h1 h2
        simp [List.zip_cons_cons, h1, h2]
      | succ k =>
        simp only [List.getElem?_cons_succ] at h1 h2
        simpa [List.zip_cons_cons] using ih ys k a b h1 h2

/-- C8: in `transform_data`, the row at each position pairs the `k`-th stock
row with the `k`-th index row, sets `daily_return` to `(Close - Open) / Open`
on each side, `relative_performance` to their difference, and categorises it
as `Negatif Sapma` iff it is `≤ -0.01`, `Nötr` iff it lies in `(-0.01, 0.01]`
and `Pozitif Sapma` iff it exceeds `0.01`. -/
theorem c8_transform_data (df : List StockRow) (ssym isym : String) :
    (∀ (k : Nat) (a b : StockRow),
      (df.filter (fun r => r.Symbol == ssym))[k]? = some a →
      (df.filter (fun r => r.Symbol == isym))[k]? = some b →
      (transform_data df ssym isym)[k]? =
        some ⟨a, daily_return a, b.Open, b.High, b.Low, b.Close, b.Volume,
          daily_return b, daily_return a - daily_return b,
          perfCategory (daily_return a - daily_return b)⟩) ∧
    (∀ a : StockRow, daily_return a = (a.Close - a.Open) / a.Open) ∧
    (∀ x : Rat,
      (perfCategory x = "Negatif Sapma" ↔ x ≤ -(1 / 100)) ∧
      (perfCategory x = "Nötr" ↔ -(1 / 100) < x ∧ x ≤ 1 / 100) ∧
      (perfCategory x = "Pozitif Sapma" ↔ 1 / 100 < x)) := by
  refine ⟨?_, fun a => rfl, ?_⟩
  · intro k a b h1 h2
    unfold transform_data
    simp only [List.getElem?_map]
    rw [zip_getElem? _ _ k a b h1 h2]
    rfl
  · intro x
    unfold perfCategory
    split_ifs with h1 h2
    · refine ⟨⟨fun _ => h1, fun _ => rfl⟩, ⟨fun hx => ?_, fun hx => ?_⟩,
        ⟨fun hx => ?_, fun hx => ?_⟩⟩
      · exact absurd hx (by decide)
      · exfalso; linarith [hx.1]
      · exact absurd hx (by decide)
      · exfalso; linarith
    · push_neg at h1
      refine ⟨⟨fun hx => ?_, fun hx => ?_⟩, ⟨fun _ => ⟨h1, h2⟩, fun _ => rfl⟩,
        ⟨fun hx => ?_, fun hx => ?_⟩⟩
      · exact absurd hx (by decide)
      · exfalso; linarith
      · exact absurd hx (by decide)
      · exfalso; linarith
    · push_neg at h1 h2
      refine ⟨⟨fun hx => ?_, fun hx => ?_⟩, ⟨fun hx => ?_, fun hx => ?_⟩,
        ⟨fun _ => h2, fun _ => rfl⟩⟩
      · exact absurd hx (by decide)
      · exfalso; linarith
      · exact absurd hx (by decide)
      · exfalso; linarith [hx.2]

/-- Witness for C8: a two-row frame with one "A" bar and one "B" bar; the
transformed row at position 0 is computed explicitly. -/
theorem c8_transform_data_witness :
    (([⟨0, 10, 13, 9, 12, 1, "A"⟩, ⟨0, 20, 21, 19, 20, 1, "B"⟩] :
        List StockRow).filter (fun r => r.Symbol == "A"))[0]? =
      some ⟨0, 10, 13, 9, 12, 1, "A"⟩ ∧
    (([⟨0, 10, 13, 9, 12, 1, "A"⟩, ⟨0, 20, 21, 19, 20, 1, "B"⟩] :
        List StockRow).filter (fun r => r.Symbol == "B"))[0]? =
      some ⟨0, 20, 21, 19, 20, 1, "B"⟩ ∧
    (transform_data [⟨0, 10, 13, 9, 12, 1, "A"⟩, ⟨0, 20, 21, 19, 20, 1, "B"⟩]
        "A" "B")[0]? =
      some ⟨⟨0, 10, 13, 9, 12, 1, "A"⟩, daily_return ⟨0, 10, 13, 9, 12, 1, "A"⟩,
        20, 21, 19, 20, 1, daily_return ⟨0, 20, 21, 19, 20, 1, "B"⟩,
        daily_return ⟨0, 10, 13, 9, 12, 1, "A"⟩ -
          daily_return ⟨0, 20, 21, 19, 20, 1, "B"⟩,
        perfCategory (daily_return ⟨0, 10, 13, 9, 12, 1, "A"⟩ -
          daily_return ⟨0, 20, 21, 19, 20, 1, "B"⟩)⟩ :=
  ⟨by decide, by decide,
    (c8_transform_data [⟨0, 10, 13, 9, 12, 1, "A"⟩, ⟨0, 20, 21, 19, 20, 1, "B"⟩]
        "A" "B").1 0 ⟨0, 10, 13, 9, 12, 1, "A"⟩ ⟨0, 20, 21, 19, 20, 1, "B"⟩
      (by decide) (by decide)⟩

/-! ### C10: `process_text_data` sentiment-score range -/

/-- A row of the text DataFrame as read by `process_text_data`. -/
structure TextRow where
  title : String
  description : String
deriving DecidableEq, Repr

/-- Behaviour of one Gemini API call on a row: an exception, or a response
whose text either contains a parsable number or does not. -/
inductive GeminiOutcome where
  | apiError
  | response (parsed : Option Rat)
deriving DecidableEq, Repr

/-- Embeds `max(-1, min(1, sentiment_score))`. -/
def clampScore (s : Rat) : Rat := max (-1) (min 1 s)

/-- Embeds the space-join `filter(None, [title, description])` text. -/
def newsText (r : TextRow) : String :=
  String.intercalate " " ([r.title, r.description].filter (fun t => !(t == "")))

/-- Embeds `not news_text or len(news_text.strip()) < 10`. -/
def textTooShort (r : TextRow) : Bool :=
  newsText r == "" || decide ((pyStrip (newsText r)).length < 10)

/-- The sentiment score the API path assigns to one row: `0` for missing or
too-short text, `0` when the call raises or no number can be parsed from the
response, and the clamped parsed score otherwise. -/
def rowScore (out : GeminiOutcome) (r : TextRow) : Rat :=
  if textTooShort r then 0
  else
    match out with
    | .apiError => 0
    | .response none => 0
    | .response (some s) => clampScore s

/-- Embeds the `sentiment_score` column produced by `process_text_data` of
`data_preprocessing.py`: with no `GEMINI_API_KEY` the scores are the uniform
draws from `[-1, 1)`, otherwise each row is scored through the Gemini call
abstracted by `outs`. -/
def process_text_data (hasKey : Bool) (draws : List Rat)
    (outs : List GeminiOutcome) (rows : List TextRow) : List Rat :=
  if rows.isEmpty then []
  else if !hasKey then draws.take rows.length
  else (rows.zip outs).map (fun p => rowScore p.2 p.1)

theorem clampScore_bounds (s : Rat) : -1 ≤ clampScore s ∧ clampScore s ≤ 1 := by
  unfold clampScore
  refine ⟨le_max_left _ _, max_le (by norm_num) (min_le_left _ _)⟩

/-- C10: every `sentiment_score` value produced by `process_text_data` lies
in `[-1, 1]`: parsed scores are clamped by `max(-1, min(1, score))`, rows
with missing or too-short text and failed API calls receive `0`, and the
no-API-key fallback draws from `[-1, 1)`. -/
theorem c10_process_text_data (hasKey : Bool) (draws : List Rat)
    (outs : List GeminiOutcome) (rows : List TextRow)
    (hdraw : ∀ d ∈ draws, -1 ≤ d ∧ d < 1) :
    ∀ s ∈ process_text_data hasKey draws outs rows, -1 ≤ s ∧ s ≤ 1 := by
  intro s hs
  unfold process_text_data at hs
  by_cases hre : rows.isEmpty
  · simp [hre] at hs
  · rw [if_neg hre] at hs
    by_cases hk : hasKey
    · simp only [hk, Bool.not_true, Bool.false_eq_true, if_false] at hs
      rcases List.mem_map.mp hs with ⟨p, _, hps⟩
      rw [← hps]
      unfold rowScore
      split_ifs
      · norm_num
      · cases p.2 with
        | apiError => norm_num
        | response o =>
          cases o with
          | none => norm_num
          | some v => exact clampScore_bounds v
    · simp only [hk, Bool.not_false, if_true] at hs
      have hmem : s ∈ draws := List.take_subset rows.length draws hs
      rcases hdraw s hmem with ⟨h1, h2⟩
      exact ⟨h1, le_of_lt (lt_of_lt_of_le h2 (by norm_num))⟩

/-- Witness for C10: one concrete row without an API key; the single draw
`0` is reported back and lies in `[-1, 1]`. -/
theorem c10_process_text_data_witness :
    (∀ d ∈ ([0] : List Rat), -1 ≤ d ∧ d < 1) ∧
    ∀ s ∈ process_text_data false [0] [] [⟨"short", "text"⟩],
      -1 ≤ s ∧ s ≤ 1 :=
  ⟨by decide,
    c10_process_text_data false [0] [] [⟨"short", "text"⟩] (by decide)⟩

/-! ### C2-C4: `merge_stock_and_news_data`

The merge appends dynamically named columns to each stock row: the daily
aggregates and, per time-of-day window occurring anywhere in the news, a
pivoted sentiment and title column.  A merged row is the stock row plus an
association list from column names to cells; `none` models NaN.
-/

/-- A cell of one of the appended columns: numeric (sentiment) or string
(title) with `none` for NaN. -/
inductive Cell where
  | num (v : Option Rat)
  | str (v : Option String)
deriving DecidableEq, Repr

/-- The appended columns of one merged row, keyed by column name. -/
abbrev Cols := List (String × Cell)

/-- Mean of a list of rationals (`pandas` mean of a non-empty group). -/
def ratMean (xs : List Rat) : Rat := xs.sum / (xs.length : Rat)

/-- The news rows of one day: the `groupby("date")` group of `d`. -/
def newsAt (news : List NewsRow) (d : Int) : List NewsRow :=
  news.filter (fun r => r.date == d)

/-- The news rows of one day falling in one time-of-day window: the
`groupby(["date", "time_of_day"])` group of `(d, w)`. -/
def newsAtW (news : List NewsRow) (d : Int) (w : String) : List NewsRow :=
  news.filter (fun r => r.date == d && get_time_of_day r.hour == w)

/-- The distinct news dates (`groupby("date")` keys), first occurrence
first. -/
def datesOf (news : List NewsRow) : List Int :=
  dedupFirst id [] (news.map (fun r => r.date))

/-- The distinct time-of-day windows occurring in the news: the columns the
pivot creates. -/
def windowsOf (news : List NewsRow) : List String :=
  dedupFirst id [] (news.map (fun r => get_time_of_day r.hour))

/-- The `daily_sentiment` aggregation for date `d`: per-day means of the
four sentiment columns and the joined titles truncated to 500 characters. -/
def dailyBlock (news : List NewsRow) (d : Int) : Cols :=
  [("daily_sentiment",
      .num (some (ratMean ((newsAt news d).map (fun r => r.sentiment_compound))))),
   ("daily_pos",
      .num (some (ratMean ((newsAt news d).map (fun r => r.sentiment_pos))))),
   ("daily_neg",
      .num (some (ratMean ((newsAt news d).map (fun r => r.sentiment_neg))))),
   ("daily_neu",
      .num (some (ratMean ((newsAt news d).map (fun r => r.sentiment_neu))))),
   ("daily_news_titles",
      .str (some ((String.intercalate "; "
        ((newsAt news d).map (fun r => r.title))).take 500)))]

/-- The pivoted per-window columns for date `d`: the mean sentiment of the
`(d, w)` group with the pivot `fillna(0)` pass already applied to the sentiment
columns, and the first two titles of the group joined (NaN when the group is
empty). -/
def pivotBlock (news : List NewsRow) (d : Int) : Cols :=
  ((windowsOf news).map (fun w =>
    ("sentiment_compound_" ++ w,
      Cell.num (some (if newsAtW news d w = [] then 0
        else ratMean ((newsAtW news d w).map (fun r => r.sentiment_compound))))))) ++
  ((windowsOf news).map (fun w =>
    ("title_" ++ w,
      Cell.str (if newsAtW news d w = [] then none
        else some (String.intercalate "; "
          (((newsAtW news d w).map (fun r => r.title)).take 2))))))

/-- The all-NaN columns a stock date absent from the news receives from the
left merge. -/
def missBlock (news : List NewsRow) : Cols :=
  [("daily_sentiment", .num none), ("daily_pos", .num none),
   ("daily_neg", .num none), ("daily_neu", .num none),
   ("daily_news_titles", .str none)] ++
  ((windowsOf news).map (fun w => ("sentiment_compound_" ++ w, Cell.num none))) ++
  ((windowsOf news).map (fun w => ("title_" ++ w, Cell.str none)))

/-- The final `fillna` pass of `merge_stock_and_news_data`: a NaN in a
column whose name contains `sentiment` becomes `0` (every such column is
numeric), and a NaN `daily_news_titles` becomes `"Haber yok"`. -/
def fillFn (name : String) (c : Cell) : Cell :=
  if strHasSub "sentiment" name then
    match c with
    | .num none => .num (some 0)
    | c' => c'
  else if name == "daily_news_titles" then
    match c with
    | .str none => .str (some "Haber yok")
    | c' => c'
  else c

/-- Apply the `fillna` pass to every appended column of a row. -/
def fillCols (cols : Cols) : Cols :=
  cols.map (fun nc => (nc.1, fillFn nc.1 nc.2))

/-- The appended columns the merge attaches to a stock row of date `d`:
with sentiment data, the daily and pivoted aggregates when `d` occurs in the
news and the NaN row of the left merge otherwise, both through the `fillna`
pass; without a `sentiment_compound` column only the joined daily titles;
with no news at all, nothing. -/
def mergeRowExtra (news : List NewsRow) (hasSentiment : Bool) (d : Int) : Cols :=
  if news.isEmpty then []
  else if hasSentiment then
    fillCols (if d ∈ datesOf news then dailyBlock news d ++ pivotBlock news d
      else missBlock news)
  else
    fillCols (if d ∈ datesOf news then
        [("daily_news_titles", .str (some (String.intercalate "; "
          ((newsAt news d).map (fun r => r.title)))))]
      else [("daily_news_titles", .str none)])

/-- The stock selection of the merge: the rows of the requested symbol, or
the whole frame when no row matches it. -/
def stockSel (stock_data : List StockRow) (sym : String) : List StockRow :=
  let f := stock_data.filter (fun r => r.Symbol == sym)
  if f.isEmpty then stock_data else f

/-- Embeds `merge_stock_and_news_data` of `Veri_Alma/HaberVerileriniAlma.py`:
an empty stock frame yields an empty result; otherwise each row of the stock
selection is kept once, in order, and receives the aggregated news columns of
its date through the date-keyed left merge (the aggregated tables have one
row per date, so the left merge neither drops nor duplicates stock rows).
`hasSentiment` mirrors the `"sentiment_compound" in news.columns` test. -/
def merge_stock_and_news_data (stock_data : List StockRow)
    (news : List NewsRow) (hasSentiment : Bool) (sym : String) :
    List (StockRow × Cols) :=
  if stock_data.isEmpty then []
  else (stockSel stock_data sym).map
    (fun s => (s, mergeRowExtra news hasSentiment s.Date))

/-! ### Helper lemmas on strings, lookups and the dedup key lists -/

theorem data_append (s t : String) : (s ++ t).data = s.data ++ t.data := by
  cases s; cases t; rfl

theorem str_append_ne_of_head (pre w t : String) (c1 c2 : Char)
    (h1 : pre.data.head? = some c1) (h2 : t.data.head? = some c2)
    (hne : c1 ≠ c2) : ((pre ++ w) == t) = false := by
  refine beq_eq_false_iff_ne.mpr ?_
  intro he
  have hd : (pre ++ w).data = t.data := congrArg String.data he
  rw [data_append] at hd
  cases hp : pre.data with
  | nil => rw [hp] at h1; simp at h1
  | cons a rest =>
    rw [hp] at hd h1
    cases ht : t.data with
    | nil => rw [ht] at h2; simp at h2
    | cons b tr =>
      rw [ht] at hd h2
      simp only [List.cons_append, List.cons.injEq] at hd
      simp only [List.head?_cons, Option.some.injEq] at h1 h2
      exact hne (by rw [← h1, ← h2]; exact hd.1)

theorem str_append_left_cancel {pre a b : String} (h : pre ++ a = pre ++ b) :
    a = b := by
  have hd := congrArg String.data h
  rw [data_append, data_append] at hd
  have hab := List.append_cancel_left hd
  exact congrArg String.mk hab

theorem charsStart_append :
    ∀ (p l m : List Char), charsStart p l = true → charsStart p (l ++ m) = true := by
  intro p
  induction p with
  | nil => intro l m _; rfl
  | cons a ps ih =>
    intro l m h
    cases l with
    | nil => simp [charsStart] at h
    | cons c cs =>
      simp only [charsStart, Bool.and_eq_true, List.cons_append] at h ⊢
      exact ⟨h.1, ih cs m h.2⟩

theorem charsSub_of_start (p l : List Char) (h : charsStart p l = true) :
    charsSub p l = true := by
  cases l with
  | nil =>
    cases p with
    | nil => rfl
    | cons a ps => simp [charsStart] at h
  | cons c cs => simp [charsSub, h]

theorem strHasSub_sentiment_sc (w : String) :
    strHasSub "sentiment" ("sentiment_compound_" ++ w) = true := by
  unfold strHasSub
  rw [data_append]
  exact charsSub_of_start _ _ (charsStart_append _ _ _ (by decide))

theorem get_time_of_day_mem (h : Int) :
    get_time_of_day h = "sabah" ∨ get_time_of_day h = "öğle" ∨
    get_time_of_day h = "akşam" ∨ get_time_of_day h = "diğer" := by
  unfold get_time_of_day
  split_ifs <;> simp

theorem windowsOf_cases (news : List NewsRow) :
    ∀ w ∈ windowsOf news,
      w = "sabah" ∨ w = "öğle" ∨ w = "akşam" ∨ w = "diğer" := by
  intro w hw
  have hmem : w ∈ news.map (fun r => get_time_of_day r.hour) :=
    (dedupFirst_sublist id (news.map (fun r => get_time_of_day r.hour)) []).subset hw
  rcases List.mem_map.mp hmem with ⟨r, _, hr⟩
  rw [← hr]
  exact get_time_of_day_mem r.hour

theorem strHasSub_sentiment_title (news : List NewsRow) (w : String)
    (hw : w ∈ windowsOf news) :
    strHasSub "sentiment" ("title_" ++ w) = false := by
  rcases windowsOf_cases news w hw with h | h | h | h <;> subst h <;> decide

theorem mem_dedupFirst_id {α : Type} [DecidableEq α] :
    ∀ (l : List α) (seen : List α) (a : α),
      a ∈ dedupFirst id seen l ↔ a ∈ l ∧ a ∉ seen := by
  intro l
  induction l with
  | nil => intro seen a; simp [dedupFirst]
  | cons x xs ih =>
    intro seen a
    by_cases hx : (id x : α) ∈ seen
    · simp only [dedupFirst, if_pos hx]
      rw [ih seen a]
      constructor
      · rintro ⟨h1, h2⟩
        exact ⟨List.mem_cons_of_mem _ h1, h2⟩
      · rintro ⟨h1, h2⟩
        rcases List.mem_cons.mp h1 with h | h
        · subst h; exact absurd hx h2
        · exact ⟨h, h2⟩
    · simp only [dedupFirst, if_neg hx]
      constructor
      · intro hmem
        rcases List.mem_cons.mp hmem with h | h
        · subst h; exact ⟨List.mem_cons_self _ _, hx⟩
        · rcases (ih (id x :: seen) a).mp h with ⟨h1, h2⟩
          refine ⟨List.mem_cons_of_mem _ h1, fun hs => h2 ?_⟩
          exact List.mem_cons_of_mem _ hs
      · rintro ⟨h1, h2⟩
        rcases List.mem_cons.mp h1 with h | h
        · subst h; exact List.mem_cons_self _ _
        · by_cases hax : a = x
          · subst hax; exact List.mem_cons_self _ _
          · refine List.mem_cons_of_mem _ ((ih (id x :: seen) a).mpr ⟨h, ?_⟩)
            intro hs
            rcases List.mem_cons.mp hs with hs | hs
            · exact hax hs
            · exact h2 hs

theorem mem_datesOf (news : List NewsRow) (d : Int) :
    d ∈ datesOf news ↔ newsAt news d ≠ [] := by
  unfold datesOf newsAt
  rw [mem_dedupFirst_id]
  constructor
  · rintro ⟨hmap, -⟩ hfil
    rcases List.mem_map.mp hmap with ⟨r, hr, hrd⟩
    rw [List.filter_eq_nil_iff] at hfil
    exact hfil r hr (by simp [hrd])
  · intro hfil
    refine ⟨?_, List.not_mem_nil d⟩
    rcases List.exists_cons_of_ne_nil hfil with ⟨r, t, hrt⟩
    have hr : r ∈ news.filter (fun r => r.date == d) := by
      rw [hrt]; exact List.mem_cons_self _ _
    rcases List.mem_filter.mp hr with ⟨h1, h2⟩
    exact List.mem_map.mpr ⟨r, h1, by simpa using h2⟩

theorem lookup_append {α β : Type} [BEq α] (l1 l2 : List (α × β)) (n : α) :
    List.lookup n (l1 ++ l2) =
      match List.lookup n l1 with
      | some c => some c
      | none => List.lookup n l2 := by
  induction l1 with
  | nil => simp [List.lookup]
  | cons p t ih =>
    cases p with
    | mk k v =>
      rw [List.cons_append, List.lookup, List.lookup]
      cases hk : (n == k) with
      | true => rfl
      | false => simpa using ih

theorem lookup_fillCols (cols : Cols) (n : String) :
    List.lookup n (fillCols cols) = (List.lookup n cols).map (fillFn n) := by
  induction cols with
  | nil => simp [fillCols, List.lookup]
  | cons p t ih =>
    cases p with
    | mk k v =>
      simp only [fillCols, List.map_cons, List.lookup]
      cases hk : (n == k) with
      | true =>
        have : n = k := beq_iff_eq.mp hk
        subst this
        rfl
      | false => simpa [fillCols] using ih

theorem lookup_window_map (pre : String) (f : String → Cell) :
    ∀ (ws : List String) (w : String), w ∈ ws →
      List.lookup (pre ++ w) (ws.map (fun v => (pre ++ v, f v))) = some (f w) := by
  intro ws
  induction ws with
  | nil => intro w hw; simp at hw
  | cons v vs ih =>
    intro w hw
    simp only [List.map_cons, List.lookup]
    cases hk : ((pre ++ w) == (pre ++ v)) with
    | true =>
      have hwv : w = v := str_append_left_cancel (beq_iff_eq.mp hk)
      subst hwv
      rfl
    | false =>
      have hne : w ≠ v := by
        intro he
        rw [he] at hk
        simp at hk
      have hw' : w ∈ vs := by
        rcases List.mem_cons.mp hw with h | h
        · exact absurd h hne
        · exact h
      exact ih w hw'

theorem lookup_append_some {α β : Type} [BEq α] {l1 l2 : List (α × β)} {n : α}
    {c : β} (h : List.lookup n l1 = some c) :
    List.lookup n (l1 ++ l2) = some c := by
  rw [lookup_append, h]

theorem lookup_append_none {α β : Type} [BEq α] {l1 l2 : List (α × β)} {n : α}
    (h : List.lookup n l1 = none) :
    List.lookup n (l1 ++ l2) = List.lookup n l2 := by
  rw [lookup_append, h]

theorem sc_ne_dailykey (w t : String) (ht : t.data.head? = some 'd') :
    (("sentiment_compound_" ++ w) == t) = false :=
  str_append_ne_of_head "sentiment_compound_" w t 's' 'd' (by decide) ht (by decide)

theorem mem_merge {stock_data : List StockRow} {news : List NewsRow}
    {hs : Bool} {sym : String} {p : StockRow × Cols}
    (hp : p ∈ merge_stock_and_news_data stock_data news hs sym) :
    p.2 = mergeRowExtra news hs p.1.Date := by
  unfold merge_stock_and_news_data at hp
  by_cases hse : stock_data.isEmpty
  · rw [if_pos hse] at hp
    simp at hp
  · rw [if_neg hse] at hp
    rcases List.mem_map.mp hp with ⟨s, _, hps⟩
    rw [← hps]

theorem mergeRowExtra_true (news : List NewsRow) (d : Int) (hne : news ≠ []) :
    mergeRowExtra news true d =
      fillCols (if d ∈ datesOf news then dailyBlock news d ++ pivotBlock news d
        else missBlock news) := by
  unfold mergeRowExtra
  have hne' : news.isEmpty = false := by
    cases news with
    | nil => exact absurd rfl hne
    | cons a t => rfl
  rw [hne']
  simp

theorem mergeRowExtra_names (news : List NewsRow) (hs : Bool) (d : Int) :
    ∀ nc ∈ mergeRowExtra news hs d,
      nc.1 = "daily_sentiment" ∨ nc.1 = "daily_pos" ∨ nc.1 = "daily_neg" ∨
      nc.1 = "daily_neu" ∨ nc.1 = "daily_news_titles" ∨
      ∃ w ∈ windowsOf news,
        nc.1 = "sentiment_compound_" ++ w ∨ nc.1 = "title_" ++ w := by
  intro nc hnc
  unfold mergeRowExtra at hnc
  by_cases hne : news.isEmpty
  · rw [if_pos hne] at hnc
    simp at hnc
  · rw [if_neg hne] at hnc
    cases hs with
    | false =>
      rw [if_neg (by decide)] at hnc
      by_cases hd : d ∈ datesOf news
      · rw [if_pos hd] at hnc
        simp [fillCols] at hnc
        exact Or.inr (Or.inr (Or.inr (Or.inr (Or.inl (by rw [hnc])))))
      · rw [if_neg hd] at hnc
        simp [fillCols] at hnc
        exact Or.inr (Or.inr (Or.inr (Or.inr (Or.inl (by rw [hnc])))))
    | true =>
      rw [if_pos rfl] at hnc
      by_cases hd : d ∈ datesOf news
      · rw [if_pos hd] at hnc
        unfold fillCols at hnc
        rcases List.mem_map.mp hnc with ⟨nc0, h0, hnc0⟩
        subst hnc0
        simp only [dailyBlock, pivotBlock, List.append_assoc, List.mem_append,
          List.mem_cons, List.not_mem_nil, or_false, List.mem_map] at h0
        rcases h0 with (h | h | h | h | h) | ⟨w, hw, hww⟩ | ⟨w, hw, hww⟩
        · exact Or.inl (by rw [h])
        · exact Or.inr (Or.inl (by rw [h]))
        · exact Or.inr (Or.inr (Or.inl (by rw [h])))
        · exact Or.inr (Or.inr (Or.inr (Or.inl (by rw [h]))))
        · exact Or.inr (Or.inr (Or.inr (Or.inr (Or.inl (by rw [h])))))
        · exact Or.inr (Or.inr (Or.inr (Or.inr (Or.inr
            ⟨w, hw, Or.inl (by rw [← hww])⟩))))
        · exact Or.inr (Or.inr (Or.inr (Or.inr (Or.inr
            ⟨w, hw, Or.inr (by rw [← hww])⟩))))
      · rw [if_neg hd] at hnc
        unfold fillCols at hnc
        rcases List.mem_map.mp hnc with ⟨nc0, h0, hnc0⟩
        subst hnc0
        simp only [missBlock, List.append_assoc, List.mem_append,
          List.mem_cons, List.not_mem_nil, or_false, List.mem_map] at h0
        rcases h0 with (h | h | h | h | h) | ⟨w, hw, hww⟩ | ⟨w, hw, hww⟩
        · exact Or.inl (by rw [h])
        · exact Or.inr (Or.inl (by rw [h]))
        · exact Or.inr (Or.inr (Or.inl (by rw [h])))
        · exact Or.inr (Or.inr (Or.inr (Or.inl (by rw [h]))))
        · exact Or.inr (Or.inr (Or.inr (Or.inr (Or.inl (by rw [h])))))
        · exact Or.inr (Or.inr (Or.inr (Or.inr (Or.inr
            ⟨w, hw, Or.inl (by rw [← hww])⟩))))
        · exact Or.inr (Or.inr (Or.inr (Or.inr (Or.inr
            ⟨w, hw, Or.inr (by rw [← hww])⟩))))

/-- C3: the merge keeps exactly the rows of the stock selection — the rows
whose `Symbol` matches, or all rows when none does — once each, in order and
with all stock fields unchanged, and every appended column is one of the
sentiment or news-title columns. -/
theorem c3_merge_preserves_stock_rows (stock_data : List StockRow)
    (news : List NewsRow) (hasSentiment : Bool) (sym : String) :
    (merge_stock_and_news_data stock_data news hasSentiment sym).map Prod.fst =
      stockSel stock_data sym ∧
    ∀ p ∈ merge_stock_and_news_data stock_data news hasSentiment sym,
      ∀ nc ∈ p.2,
        nc.1 = "daily_sentiment" ∨ nc.1 = "daily_pos" ∨ nc.1 = "daily_neg" ∨
        nc.1 = "daily_neu" ∨ nc.1 = "daily_news_titles" ∨
        ∃ w ∈ windowsOf news,
          nc.1 = "sentiment_compound_" ++ w ∨ nc.1 = "title_" ++ w := by
  constructor
  · unfold merge_stock_and_news_data
    by_cases hse : stock_data.isEmpty
    · rw [if_pos hse]
      have h0 : stock_data = [] := by
        cases stock_data with
        | nil => rfl
        | cons a t => simp at hse
      subst h0
      simp [stockSel]
    · rw [if_neg hse]
      have hall : ∀ l : List StockRow,
          (l.map (fun s => (s, mergeRowExtra news hasSentiment s.Date))).map
            Prod.fst = l := by
        intro l
        induction l with
        | nil => rfl
        | cons a t ih => simp only [List.map_cons, ih]
      exact hall _
  · intro p hp nc hnc
    rw [mem_merge hp] at hnc
    exact mergeRowExtra_names news hasSentiment p.1.Date nc hnc

/-- C2: with non-empty news carrying a `sentiment_compound` column, the
`daily_sentiment` attached to a stock date with news is the mean of
`sentiment_compound` over exactly the news rows of that day, and each existing
per-window column holds the mean over the rows of that day in the window, with
`0` for a window empty on that day. -/
theorem c2_merge_sentiment_means (stock_data : List StockRow)
    (news : List NewsRow) (sym : String) (hne : news ≠ []) :
    ∀ p ∈ merge_stock_and_news_data stock_data news true sym,
      (newsAt news p.1.Date ≠ [] →
        List.lookup "daily_sentiment" p.2 =
          some (.num (some (ratMean
            ((newsAt news p.1.Date).map (fun r => r.sentiment_compound)))))) ∧
      (∀ w ∈ windowsOf news,
        List.lookup ("sentiment_compound_" ++ w) p.2 =
          some (.num (some (if newsAtW news p.1.Date w = [] then 0
            else ratMean
              ((newsAtW news p.1.Date w).map (fun r => r.sentiment_compound)))))) := by
  intro p hp
  rw [mem_merge hp, mergeRowExtra_true news p.1.Date hne]
  have hs1 : strHasSub "sentiment" "daily_sentiment" = true := by decide
  constructor
  · intro hnemp
    have hd : p.1.Date ∈ datesOf news := (mem_datesOf news p.1.Date).mpr hnemp
    rw [if_pos hd, lookup_fillCols]
    have hdl : List.lookup "daily_sentiment"
        (dailyBlock news p.1.Date ++ pivotBlock news p.1.Date) =
        some (.num (some (ratMean
          ((newsAt news p.1.Date).map (fun r => r.sentiment_compound))))) :=
      lookup_append_some (by simp [dailyBlock, List.lookup])
    rw [hdl]
    simp [fillFn, hs1]
  · intro w hw
    have f1 := sc_ne_dailykey w "daily_sentiment" (by decide)
    have f2 := sc_ne_dailykey w "daily_pos" (by decide)
    have f3 := sc_ne_dailykey w "daily_neg" (by decide)
    have f4 := sc_ne_dailykey w "daily_neu" (by decide)
    have f5 := sc_ne_dailykey w "daily_news_titles" (by decide)
    by_cases hd : p.1.Date ∈ datesOf news
    · rw [if_pos hd, lookup_fillCols]
      have h0 : List.lookup ("sentiment_compound_" ++ w)
          (dailyBlock news p.1.Date) = none := by
        simp [dailyBlock, List.lookup, f1, f2, f3, f4, f5]
      rw [lookup_append_none h0]
      unfold pivotBlock
      rw [lookup_append_some
        (lookup_window_map "sentiment_compound_" _ (windowsOf news) w hw)]
      simp [fillFn, strHasSub_sentiment_sc w]
    · have hempty : newsAt news p.1.Date = [] := by
        by_contra hc
        exact hd ((mem_datesOf news p.1.Date).mpr hc)
      have hwempty : newsAtW news p.1.Date w = [] := by
        unfold newsAt at hempty
        unfold newsAtW
        rw [List.filter_eq_nil_iff] at hempty ⊢
        intro r hr hpred
        simp only [Bool.and_eq_true] at hpred
        exact hempty r hr hpred.1
      rw [if_neg hd, lookup_fillCols]
      have h0 : List.lookup ("sentiment_compound_" ++ w) (missBlock news) =
          some (Cell.num none) := by
        unfold missBlock
        rw [List.append_assoc]
        have h5 : List.lookup ("sentiment_compound_" ++ w)
            ([("daily_sentiment", Cell.num none), ("daily_pos", Cell.num none),
              ("daily_neg", Cell.num none), ("daily_neu", Cell.num none),
              ("daily_news_titles", Cell.str none)] : Cols) = none := by
          simp [List.lookup, f1, f2, f3, f4, f5]
        rw [lookup_append_none h5]
        exact lookup_append_some
          (lookup_window_map "sentiment_compound_" _ (windowsOf news) w hw)
      rw [h0]
      simp [fillFn, strHasSub_sentiment_sc w, hwempty]

/-- Witness for C2 on two news items (hours 10 and 15) of day 0 and two
stock bars of days 0 and 5. -/
theorem c2_merge_sentiment_means_witness :
    ([⟨0, 10, 1, 1, 0, 0, "t1", "u1"⟩, ⟨0, 15, 3, 1, 0, 0, "t2", "u2"⟩] :
      List NewsRow) ≠ [] ∧
    (⟨⟨0, 2, 3, 1, 2, 5, "A"⟩,
        mergeRowExtra
          [⟨0, 10, 1, 1, 0, 0, "t1", "u1"⟩, ⟨0, 15, 3, 1, 0, 0, "t2", "u2"⟩]
          true 0⟩ : StockRow × Cols) ∈
      merge_stock_and_news_data
        [⟨0, 2, 3, 1, 2, 5, "A"⟩, ⟨5, 2, 3, 1, 2, 5, "A"⟩]
        [⟨0, 10, 1, 1, 0, 0, "t1", "u1"⟩, ⟨0, 15, 3, 1, 0, 0, "t2", "u2"⟩]
        true "A" ∧
    List.lookup "daily_sentiment"
      (mergeRowExtra
        [⟨0, 10, 1, 1, 0, 0, "t1", "u1"⟩, ⟨0, 15, 3, 1, 0, 0, "t2", "u2"⟩]
        true 0) =
      some (.num (some (ratMean
        ((newsAt [⟨0, 10, 1, 1, 0, 0, "t1", "u1"⟩, ⟨0, 15, 3, 1, 0, 0, "t2", "u2"⟩]
          0).map (fun r => r.sentiment_compound))))) ∧
    List.lookup ("sentiment_compound_" ++ "sabah")
      (mergeRowExtra
        [⟨0, 10, 1, 1, 0, 0, "t1", "u1"⟩, ⟨0, 15, 3, 1, 0, 0, "t2", "u2"⟩]
        true 0) =
      some (.num (some (if newsAtW
          [⟨0, 10, 1, 1, 0, 0, "t1", "u1"⟩, ⟨0, 15, 3, 1, 0, 0, "t2", "u2"⟩]
          0 "sabah" = [] then 0
        else ratMean ((newsAtW
          [⟨0, 10, 1, 1, 0, 0, "t1", "u1"⟩, ⟨0, 15, 3, 1, 0, 0, "t2", "u2"⟩]
          0 "sabah").map (fun r => r.sentiment_compound))))) := by
  have hp : (⟨⟨0, 2, 3, 1, 2, 5, "A"⟩,
      mergeRowExtra
        [⟨0, 10, 1, 1, 0, 0, "t1", "u1"⟩, ⟨0, 15, 3, 1, 0, 0, "t2", "u2"⟩]
        true 0⟩ : StockRow × Cols) ∈
      merge_stock_and_news_data
        [⟨0, 2, 3, 1, 2, 5, "A"⟩, ⟨5, 2, 3, 1, 2, 5, "A"⟩]
        [⟨0, 10, 1, 1, 0, 0, "t1", "u1"⟩, ⟨0, 15, 3, 1, 0, 0, "t2", "u2"⟩]
        true "A" := by
    have he : merge_stock_and_news_data
        [⟨0, 2, 3, 1, 2, 5, "A"⟩, ⟨5, 2, 3, 1, 2, 5, "A"⟩]
        [⟨0, 10, 1, 1, 0, 0, "t1", "u1"⟩, ⟨0, 15, 3, 1, 0, 0, "t2", "u2"⟩]
        true "A" =
        [⟨⟨0, 2, 3, 1, 2, 5, "A"⟩,
          mergeRowExtra
            [⟨0, 10, 1, 1, 0, 0, "t1", "u1"⟩, ⟨0, 15, 3, 1, 0, 0, "t2", "u2"⟩]
            true 0⟩,
         ⟨⟨5, 2, 3, 1, 2, 5, "A"⟩,
          mergeRowExtra
            [⟨0, 10, 1, 1, 0, 0, "t1", "u1"⟩, ⟨0, 15, 3, 1, 0, 0, "t2", "u2"⟩]
            true 5⟩] := rfl
    rw [he]
    exact List.mem_cons_self _ _
  have hc := c2_merge_sentiment_means
    [⟨0, 2, 3, 1, 2, 5, "A"⟩, ⟨5, 2, 3, 1, 2, 5, "A"⟩]
    [⟨0, 10, 1, 1, 0, 0, "t1", "u1"⟩, ⟨0, 15, 3, 1, 0, 0, "t2", "u2"⟩]
    "A" (by decide) _ hp
  exact ⟨by decide, hp, hc.1 (by decide), hc.2 "sabah" (by decide)⟩

/-- C4: in the merged frame every column whose name contains `sentiment`
holds an actual number (never NaN), and a stock date with no news day gets
`0` in each such column and `"Haber yok"` as `daily_news_titles`. -/
theorem c4_merge_fills_missing (stock_data : List StockRow)
    (news : List NewsRow) (sym : String) (hne : news ≠ []) :
    ∀ p ∈ merge_stock_and_news_data stock_data news true sym,
      (∀ nc ∈ p.2, strHasSub "sentiment" nc.1 = true →
        ∃ q : Rat, nc.2 = .num (some q)) ∧
      (newsAt news p.1.Date = [] →
        (∀ nc ∈ p.2, strHasSub "sentiment" nc.1 = true →
          nc.2 = .num (some 0)) ∧
        List.lookup "daily_news_titles" p.2 =
          some (.str (some "Haber yok"))) := by
  intro p hp
  rw [mem_merge hp, mergeRowExtra_true news p.1.Date hne]
  have hs1 : strHasSub "sentiment" "daily_sentiment" = true := by decide
  have hs2 : strHasSub "sentiment" "daily_pos" = false := by decide
  have hs3 : strHasSub "sentiment" "daily_neg" = false := by decide
  have hs4 : strHasSub "sentiment" "daily_neu" = false := by decide
  have hs5 : strHasSub "sentiment" "daily_news_titles" = false := by decide
  constructor
  · intro nc hnc hsent
    by_cases hd : p.1.Date ∈ datesOf news
    · rw [if_pos hd] at hnc
      unfold fillCols at hnc
      rcases List.mem_map.mp hnc with ⟨nc0, h0, hnc0⟩
      subst hnc0
      simp only [dailyBlock, pivotBlock, List.append_assoc, List.mem_append,
        List.mem_cons, List.not_mem_nil, or_false, List.mem_map] at h0
      rcases h0 with (h | h | h | h | h) | ⟨w, hw, hww⟩ | ⟨w, hw, hww⟩
      · subst h
        exact ⟨ratMean ((newsAt news p.1.Date).map (fun r => r.sentiment_compound)),
          by simp [fillFn, hs1]⟩
      · subst h; simp only at hsent; rw [hs2] at hsent; exact absurd hsent (by decide)
      · subst h; simp only at hsent; rw [hs3] at hsent; exact absurd hsent (by decide)
      · subst h; simp only at hsent; rw [hs4] at hsent; exact absurd hsent (by decide)
      · subst h; simp only at hsent; rw [hs5] at hsent; exact absurd hsent (by decide)
      · subst hww
        exact ⟨if newsAtW news p.1.Date w = [] then 0
            else ratMean ((newsAtW news p.1.Date w).map (fun r => r.sentiment_compound)),
          by simp [fillFn, strHasSub_sentiment_sc w]⟩
      · subst hww
        simp only at hsent
        rw [strHasSub_sentiment_title news w hw] at hsent
        exact absurd hsent (by decide)
    · rw [if_neg hd] at hnc
      unfold fillCols at hnc
      rcases List.mem_map.mp hnc with ⟨nc0, h0, hnc0⟩
      subst hnc0
      simp only [missBlock, List.append_assoc, List.mem_append,
        List.mem_cons, List.not_mem_nil, or_false, List.mem_map] at h0
      rcases h0 with (h | h | h | h | h) | ⟨w, hw, hww⟩ | ⟨w, hw, hww⟩
      · subst h; exact ⟨0, by simp [fillFn, hs1]⟩
      · subst h; simp only at hsent; rw [hs2] at hsent; exact absurd hsent (by decide)
      · subst h; simp only at hsent; rw [hs3] at hsent; exact absurd hsent (by decide)
      · subst h; simp only at hsent; rw [hs4] at hsent; exact absurd hsent (by decide)
      · subst h; simp only at hsent; rw [hs5] at hsent; exact absurd hsent (by decide)
      · subst hww; exact ⟨0, by simp [fillFn, strHasSub_sentiment_sc w]⟩
      · subst hww
        simp only at hsent
        rw [strHasSub_sentiment_title news w hw] at hsent
        exact absurd hsent (by decide)
  · intro hdnone
    have hd : p.1.Date ∉ datesOf news := by
      intro hmem
      exact absurd hdnone ((mem_datesOf news p.1.Date).mp hmem)
    rw [if_neg hd]
    constructor
    · intro nc hnc hsent
      unfold fillCols at hnc
      rcases List.mem_map.mp hnc with ⟨nc0, h0, hnc0⟩
      subst hnc0
      simp only [missBlock, List.append_assoc, List.mem_append,
        List.mem_cons, List.not_mem_nil, or_false, List.mem_map] at h0
      rcases h0 with (h | h | h | h | h) | ⟨w, hw, hww⟩ | ⟨w, hw, hww⟩
      · subst h; simp [fillFn, hs1]
      · subst h; simp only at hsent; rw [hs2] at hsent; exact absurd hsent (by decide)
      · subst h; simp only at hsent; rw [hs3] at hsent; exact absurd hsent (by decide)
      · subst h; simp only at hsent; rw [hs4] at hsent; exact absurd hsent (by decide)
      · subst h; simp only at hsent; rw [hs5] at hsent; exact absurd hsent (by decide)
      · subst hww; simp [fillFn, strHasSub_sentiment_sc w]
      · subst hww
        simp only at hsent
        rw [strHasSub_sentiment_title news w hw] at hsent
        exact absurd hsent (by decide)
    · rw [lookup_fillCols]
      have h0 : List.lookup "daily_news_titles" (missBlock news) =
          some (.str none) := by
        simp [missBlock, List.lookup]
      rw [h0]
      simp [fillFn, hs5]

/-- Witness for C4 at the stock bar of day 5, which has no news. -/
theorem c4_merge_fills_missing_witness :
    ([⟨0, 10, 1, 1, 0, 0, "t1", "u1"⟩, ⟨0, 15, 3, 1, 0, 0, "t2", "u2"⟩] :
      List NewsRow) ≠ [] ∧
    (⟨⟨5, 2, 3, 1, 2, 5, "A"⟩,
        mergeRowExtra
          [⟨0, 10, 1, 1, 0, 0, "t1", "u1"⟩, ⟨0, 15, 3, 1, 0, 0, "t2", "u2"⟩]
          true 5⟩ : StockRow × Cols) ∈
      merge_stock_and_news_data
        [⟨0, 2, 3, 1, 2, 5, "A"⟩, ⟨5, 2, 3, 1, 2, 5, "A"⟩]
        [⟨0, 10, 1, 1, 0, 0, "t1", "u1"⟩, ⟨0, 15, 3, 1, 0, 0, "t2", "u2"⟩]
        true "A" ∧
    newsAt [⟨0, 10, 1, 1, 0, 0, "t1", "u1"⟩, ⟨0, 15, 3, 1, 0, 0, "t2", "u2"⟩]
      5 = [] ∧
    (∀ nc ∈ mergeRowExtra
        [⟨0, 10, 1, 1, 0, 0, "t1", "u1"⟩, ⟨0, 15, 3, 1, 0, 0, "t2", "u2"⟩]
        true 5,
      strHasSub "sentiment" nc.1 = true → nc.2 = .num (some 0)) ∧
    List.lookup "daily_news_titles"
      (mergeRowExtra
        [⟨0, 10, 1, 1, 0, 0, "t1", "u1"⟩, ⟨0, 15, 3, 1, 0, 0, "t2", "u2"⟩]
        true 5) =
      some (.str (some "Haber yok")) := by
  have hp : (⟨⟨5, 2, 3, 1, 2, 5, "A"⟩,
      mergeRowExtra
        [⟨0, 10, 1, 1, 0, 0, "t1", "u1"⟩, ⟨0, 15, 3, 1, 0, 0, "t2", "u2"⟩]
        true 5⟩ : StockRow × Cols) ∈
      merge_stock_and_news_data
        [⟨0, 2, 3, 1, 2, 5, "A"⟩, ⟨5, 2, 3, 1, 2, 5, "A"⟩]
        [⟨0, 10, 1, 1, 0, 0, "t1", "u1"⟩, ⟨0, 15, 3, 1, 0, 0, "t2", "u2"⟩]
        true "A" := by
    have he : merge_stock_and_news_data
        [⟨0, 2, 3, 1, 2, 5, "A"⟩, ⟨5, 2, 3, 1, 2, 5, "A"⟩]
        [⟨0, 10, 1, 1, 0, 0, "t1", "u1"⟩, ⟨0, 15, 3, 1, 0, 0, "t2", "u2"⟩]
        true "A" =
        [⟨⟨0, 2, 3, 1, 2, 5, "A"⟩,
          mergeRowExtra
            [⟨0, 10, 1, 1, 0, 0, "t1", "u1"⟩, ⟨0, 15, 3, 1, 0, 0, "t2", "u2"⟩]
            true 0⟩,
         ⟨⟨5, 2, 3, 1, 2, 5, "A"⟩,
          mergeRowExtra
            [⟨0, 10, 1, 1, 0, 0, "t1", "u1"⟩, ⟨0, 15, 3, 1, 0, 0, "t2", "u2"⟩]
            true 5⟩] := rfl
    rw [he]
    exact List.mem_cons_of_mem _ (List.mem_cons_self _ _)
  have hc := c4_merge_fills_missing
    [⟨0, 2, 3, 1, 2, 5, "A"⟩, ⟨5, 2, 3, 1, 2, 5, "A"⟩]
    [⟨0, 10, 1, 1, 0, 0, "t1", "u1"⟩, ⟨0, 15, 3, 1, 0, 0, "t2", "u2"⟩]
    "A" (by decide) _ hp
  have h5 : newsAt
      [⟨0, 10, 1, 1, 0, 0, "t1", "u1"⟩, ⟨0, 15, 3, 1, 0, 0, "t2", "u2"⟩]
      5 = [] := by decide
  exact ⟨by decide, hp, h5, (hc.2 h5).1, (hc.2 h5).2⟩
